import Mathlib

/-!
Verification of the task-tracking / log-reconciliation subsystem of the
ProgWizer/parser frontend.

The development shallowly embeds the relevant JavaScript:

* `frontend/src/utils/history.js` — the History Store (`saveToHistory`,
  `updateHistoryItem`, `saveCompleteLogsToHistory`, `getHistory`);
* the `pollLogs` routine of the Parser page — the Task Poller.

Conventions of the embedding:

* `localStorage` is passed explicitly: every store operation takes the current
  list of history items and returns the new list together with the value the
  JavaScript function returns.
* Timestamps (`new Date().getTime()` of ISO strings) are modelled as `Nat`
  milliseconds; a log event's missing `timestamp` is `Option.none`, and the
  sort key `a.timestamp ? getTime(a.timestamp) : 0` becomes `Option.getD 0`.
* `Array.prototype.sort` with the numeric comparator `timeA - timeB` is a
  stable sort; it is modelled by a stable insertion sort on the same key.
* An object spread `{...item, ...updates}` overwrites exactly the keys present
  in `updates`; presence of a key is modelled by `Option`.
-/

set_option autoImplicit false

namespace ParserProject

/-- One log event, as stored in `logs` arrays: `{ message, type, timestamp? }`.
The code calls the `type` field the severity (info / success / warning /
error). -/
structure LogEvent where
  message : String
  type : String
  timestamp : Option Nat
deriving Repr, DecidableEq

/-- Sort key used by `saveCompleteLogsToHistory`:
`a.timestamp ? new Date(a.timestamp).getTime() : 0`. -/
def tsKey (e : LogEvent) : Nat := e.timestamp.getD 0

/-- The opaque final result object returned by `/api/task/{id}/result`;
the poller reads its `allLogs` field (`finalResult.allLogs || []`) and stores
the whole object in the record's `result` field. -/
structure FinalResult where
  allLogs : Option (List LogEvent)
  payload : String
deriving Repr, DecidableEq

/-- One history record, as built by `saveToHistory` and mutated by
`updateHistoryItem` / `saveCompleteLogsToHistory`.  Fields that the creation
code never sets (`updatedAt`, `endTime`, `duration`) are `Option`. -/
structure HistoryItem where
  id : Nat
  taskId : String
  type : String
  path : String
  folderName : String
  startTime : Nat
  status : String
  logs : List LogEvent
  allLogs : List LogEvent
  result : Option FinalResult
  error : Option String
  savedAt : Nat
  updatedAt : Option Nat
  endTime : Option Nat
  duration : Option Nat
deriving Repr, DecidableEq

/-- The argument object of `saveToHistory`; `Option` marks fields the caller
may omit (or pass a falsy value for), which the code defaults with `||`. -/
structure TaskData where
  taskId : String
  type : Option String
  path : String
  folderName : String
  startTime : Option Nat
  status : Option String
  logs : Option (List LogEvent)
  allLogs : Option (List LogEvent)
  result : Option FinalResult
  error : Option String
deriving Repr, DecidableEq

/-- Code: `const MAX_HISTORY_ITEMS = 100`. -/
def MAX_HISTORY_ITEMS : Nat := 100

/-- The history-item object literal built inside `saveToHistory`:
defaults `type || 'unknown'`, `startTime || now`, `status || 'running'`,
`logs || []`, `allLogs || []`, `result || null`, `error || null`,
`savedAt = now`.  `uuidv4()` is modelled by the caller-supplied `freshId`.
Note the literal copies only these fields: an `endTime` or `duration`
passed in `taskData` is dropped. -/
def mkHistoryItem (freshId : Nat) (now : Nat) (td : TaskData) : HistoryItem where
  id := freshId
  taskId := td.taskId
  type := td.type.getD "unknown"
  path := td.path
  folderName := td.folderName
  startTime := td.startTime.getD now
  status := td.status.getD "running"
  logs := td.logs.getD []
  allLogs := td.allLogs.getD []
  result := td.result
  error := td.error
  savedAt := now
  updatedAt := none
  endTime := none
  duration := none

/-- Embeds `saveToHistory`: prepend the new item, then
`if (newHistory.length > MAX_HISTORY_ITEMS) newHistory.length = MAX_HISTORY_ITEMS`
(i.e. truncate to the first 100 entries).  Returns the new store contents and
the returned `historyItem.id`. -/
def saveToHistory (freshId : Nat) (now : Nat) (td : TaskData)
    (hist : List HistoryItem) : List HistoryItem × Nat :=
  let item := mkHistoryItem freshId now td
  ((item :: hist).take MAX_HISTORY_ITEMS, item.id)

/-- The `updates` object passed to `updateHistoryItem`; `Option.some` marks a
key present in the object (so the spread overwrites it), `none` an absent key. -/
structure Updates where
  logs : Option (List LogEvent) := none
  status : Option String := none
  endTime : Option Nat := none
  error : Option String := none
  duration : Option Nat := none
  result : Option FinalResult := none
deriving Repr, DecidableEq

/-- Code: `new Set(existingLogs.map(l => l.message)).has(m)`. -/
def hasMessage (l : List LogEvent) (m : String) : Bool :=
  l.any (fun e => e.message == m)

/-- The log merge inside `updateHistoryItem`:
`[...existingLogs, ...updates.logs.filter(l => !existingMessages.has(l.message))]`. -/
def mergeNewLogs (existing incoming : List LogEvent) : List LogEvent :=
  existing ++ incoming.filter (fun l => ! hasMessage existing l.message)

/-- The body of `updateHistoryItem` applied to the found record: first the
special-casing `if (updates.logs && updates.logs.length > 0) updates.logs = ...`,
then the spread `{...item, ...updates, updatedAt: now}`. -/
def applyUpdates (item : HistoryItem) (u : Updates) (now : Nat) : HistoryItem :=
  let u' : Updates :=
    match u.logs with
    | some ls =>
        if ls.length > 0 then { u with logs := some (mergeNewLogs item.logs ls) }
        else u
    | none => u
  { item with
    logs := u'.logs.getD item.logs
    status := u'.status.getD item.status
    endTime := match u'.endTime with | some t => some t | none => item.endTime
    error := match u'.error with | some e => some e | none => item.error
    duration := match u'.duration with | some d => some d | none => item.duration
    result := match u'.result with | some r => some r | none => item.result
    updatedAt := some now }

/-- Code: `history.findIndex(...)` followed by replacing that single entry:
rewrite the first element satisfying `p` by `f`, or return `none` when no
element matches. -/
def updateFirst (p : HistoryItem → Bool) (f : HistoryItem → HistoryItem) :
    List HistoryItem → Option (List HistoryItem)
  | [] => none
  | x :: xs =>
      if p x then some (f x :: xs)
      else (updateFirst p f xs).map (fun t => x :: t)

/-- Embeds `updateHistoryItem(taskId, updates)`: locate the record by `taskId`,
apply the field merge, persist; returns `itemIndex !== -1`. -/
def updateHistoryItem (tid : String) (u : Updates) (now : Nat)
    (hist : List HistoryItem) : List HistoryItem × Bool :=
  match updateFirst (fun it => it.taskId == tid) (fun it => applyUpdates it u now) hist with
  | some h => (h, true)
  | none => (hist, false)

/-- The dedup loop of `saveCompleteLogsToHistory` with its `seenMessages` set
(modelled as the list of messages seen so far). -/
def dedupByMessageGo (seen : List String) : List LogEvent → List LogEvent
  | [] => []
  | x :: xs =>
      if seen.contains x.message then dedupByMessageGo seen xs
      else x :: dedupByMessageGo (x.message :: seen) xs

/-- Code: `for (const log of allLogs) if (!seenMessages.has(log.message)) ...`:
keep the first occurrence of every message. -/
def dedupByMessage (l : List LogEvent) : List LogEvent :=
  dedupByMessageGo [] l

/-- Insertion step of the stable sort on `tsKey`: an element moves past
strictly smaller keys only, so elements that compare equal keep their
original relative order — exactly the guarantee of the (stable)
`Array.prototype.sort` with comparator `timeA - timeB`. -/
def insertByTs (e : LogEvent) : List LogEvent → List LogEvent
  | [] => [e]
  | x :: xs =>
      if tsKey x < tsKey e then x :: insertByTs e xs
      else e :: x :: xs

/-- Code: `uniqueLogs.sort((a, b) => timeA - timeB)` as a stable insertion sort. -/
def sortLogs (l : List LogEvent) : List LogEvent :=
  l.foldr insertByTs []

/-- The whole merge of `saveCompleteLogsToHistory`:
`allLogs = [...backendLogs, ...existingLogs]` (backend dump FIRST), dedup by
message keeping the first occurrence, then sort by timestamp. -/
def mergeCompleteLogs (backendLogs existingLogs : List LogEvent) : List LogEvent :=
  sortLogs (dedupByMessage (backendLogs ++ existingLogs))

/-- The record rewrite of `saveCompleteLogsToHistory`:
`{...item, logs: uniqueLogs, allLogs: backendLogs, updatedAt: now}`. -/
def finalizeItem (backendLogs : List LogEvent) (now : Nat) (item : HistoryItem) :
    HistoryItem :=
  { item with
    logs := mergeCompleteLogs backendLogs item.logs
    allLogs := backendLogs
    updatedAt := some now }

/-- Embeds `saveCompleteLogsToHistory(taskId, backendLogs)`. -/
def saveCompleteLogsToHistory (tid : String) (backendLogs : List LogEvent)
    (now : Nat) (hist : List HistoryItem) : List HistoryItem × Bool :=
  match updateFirst (fun it => it.taskId == tid) (finalizeItem backendLogs now) hist with
  | some h => (h, true)
  | none => (hist, false)

/-- A raw persisted snapshot string, modelled by its JSON-parse outcome:
`none` stands for a string on which `JSON.parse` throws, `some l` for a string
parsing to the record list `l`.  The default string `'[]'` parses to `some []`. -/
abbrev RawSnapshot := Option (List HistoryItem)

/-- Embeds `getHistory`: `JSON.parse(localStorage.getItem(HISTORY_KEY) || '[]')`
inside `try/catch` — an absent key falls back to `'[]'`, a parse exception is
caught and `[]` returned.  The outer `Option` is the `getItem` result. -/
def getHistory (stored : Option RawSnapshot) : List HistoryItem :=
  match stored.getD (some []) with
  | some l => l
  | none => []

/-! Section: the Task Poller (`pollLogs` of the Parser page). -/

/-- Synthetic success event appended on `status === 'completed'`. -/
def successEvent (now : Nat) : LogEvent :=
  ⟨"✅ Парсинг завершен успешно!", "success", some now⟩

/-- Synthetic info event appended when the result fetch fails after a
completed status. -/
def noResultEvent (now : Nat) : LogEvent :=
  ⟨"✅ Задача завершена (результат не получен)", "info", some now⟩

/-- Synthetic error event appended on `status === 'failed'`. -/
def failedEvent (now : Nat) : LogEvent :=
  ⟨"❌ Парсинг завершен с ошибкой", "error", some now⟩

/-- Synthetic error event appended when the poller aborts on a communication
failure: `❌ Ошибка связи с сервером: ${err.message}`. -/
def commErrorEvent (emsg : String) (now : Nat) : LogEvent :=
  ⟨"❌ Ошибка связи с сервером: " ++ emsg, "error", some now⟩

/-- Outcome of one `axios.get(/api/task/id/logs)` attempt, as the `poll`
closure distinguishes them.  For a successful fetch reporting `completed`,
`resultFetch` is the outcome of the follow-up `/api/task/id/result` call:
`some` with the result object, or `none` when that call throws. -/
inductive FetchOutcome where
  | success (status : String) (newLogs : List LogEvent) (resultFetch : Option FinalResult)
  | timeout (emsg : String)
  | fatal (emsg : String)
deriving Repr, DecidableEq

/-- How a (finite) simulated poll trace ended. `pending` means the supplied
trace was exhausted while the poller had scheduled another attempt. -/
inductive PollEnd where
  | pending (attempt : Nat)
  | completedOk
  | completedNoResult
  | failedRemote
  | aborted
  | unknownStatus
deriving Repr, DecidableEq

/-- Result of simulating the poll loop: final store contents, final value of
the component's `logs` state, and how the loop ended. -/
structure PollResult where
  hist : List HistoryItem
  localLogs : List LogEvent
  outcome : PollEnd
deriving Repr, DecidableEq

/-- Code: `const maxAttempts = 10`. -/
def maxAttempts : Nat := 10

/-- Shallow embedding of the `poll` closure of `pollLogs(id, startTime)`,
run against a finite trace of fetch outcomes.

State threaded through the loop: `attempt` (the `let attempt = 0` counter —
note the code never resets it on a successful fetch), the component's `logs`
state (updated functionally via `setLogs(prev => ...)`), and the history
store.  `closureLogs` is the `logs` value captured by the closure when
`pollLogs` was invoked: the terminal branches read the stale `logs` variable
directly.  `now` stands for `new Date()` and `dur` for the computed
`formatDuration(startTime, new Date())`. -/
def pollSim (id : String) (closureLogs : List LogEvent) (now dur : Nat) :
    Nat → List LogEvent → List HistoryItem → List FetchOutcome → PollResult
  | attempt, localLogs, hist, [] => ⟨hist, localLogs, .pending attempt⟩
  | attempt, localLogs, hist, o :: rest =>
    match o with
    | .timeout emsg =>
        if attempt < maxAttempts then
          pollSim id closureLogs now dur (attempt + 1) localLogs hist rest
        else
          let errorLogs := closureLogs ++ [commErrorEvent emsg now]
          let hist' := (updateHistoryItem id
            { status := some "failed", endTime := some now, error := some emsg,
              logs := some errorLogs, duration := some dur } now hist).1
          ⟨hist', localLogs, .aborted⟩
    | .fatal emsg =>
        let errorLogs := closureLogs ++ [commErrorEvent emsg now]
        let hist' := (updateHistoryItem id
          { status := some "failed", endTime := some now, error := some emsg,
            logs := some errorLogs, duration := some dur } now hist).1
        ⟨hist', localLogs, .aborted⟩
    | .success status newLogs resultFetch =>
        let filtered := newLogs.filter (fun l => ! hasMessage localLogs l.message)
        let localLogs' := localLogs ++ filtered
        let hist' :=
          if filtered.length > 0 then
            (updateHistoryItem id { logs := some localLogs', status := some status }
              now hist).1
          else hist
        if status == "running" then
          pollSim id closureLogs now dur attempt localLogs' hist' rest
        else if status == "completed" then
          match resultFetch with
          | some fr =>
              let backendLogs := fr.allLogs.getD []
              let hist2 := (saveCompleteLogsToHistory id backendLogs now hist').1
              let finalLogs := closureLogs ++ [successEvent now]
              let hist3 := (updateHistoryItem id
                { status := some "completed", endTime := some now,
                  logs := some finalLogs, duration := some dur,
                  result := some fr } now hist2).1
              ⟨hist3, localLogs' ++ [successEvent now], .completedOk⟩
          | none =>
              let hist2 := (updateHistoryItem id
                { status := some "completed", endTime := some now,
                  duration := some dur,
                  logs := some (closureLogs ++ [noResultEvent now]) } now hist').1
              ⟨hist2, localLogs', .completedNoResult⟩
        else if status == "failed" then
          let finalLogs := closureLogs ++ [failedEvent now]
          let hist2 := (updateHistoryItem id
            { status := some "failed", endTime := some now,
              logs := some finalLogs, duration := some dur } now hist').1
          ⟨hist2, localLogs' ++ [failedEvent now], .failedRemote⟩
        else
          ⟨hist', localLogs', .unknownStatus⟩

/-! Section: spec-side definitions and concrete inputs used by the claims. -/

/-- Modelled from the spec: the length of the longest run of consecutive
transient timeouts in a fetch trace — the quantity the spec's
"consecutive-timeout counter" tracks (it is reset by any non-timeout step). -/
def maxConsecTimeoutsGo : Nat → Nat → List FetchOutcome → Nat
  | _, best, [] => best
  | cur, best, FetchOutcome.timeout _ :: rest =>
      maxConsecTimeoutsGo (cur + 1) (max (cur + 1) best) rest
  | _, best, _ :: rest => maxConsecTimeoutsGo 0 best rest

/-- Modelled from the spec: longest run of consecutive timeouts in a trace. -/
def maxConsecTimeouts (l : List FetchOutcome) : Nat :=
  maxConsecTimeoutsGo 0 0 l

/-- Predicate: `logEvents` sorted ascending by the timestamp key. -/
def LogsSortedByTs (l : List LogEvent) : Prop :=
  l.Pairwise (fun a b => tsKey a ≤ tsKey b)

/-- No two entries of the sequence share a `message`. -/
def NodupMessages (l : List LogEvent) : Prop :=
  l.Pairwise (fun a b => a.message ≠ b.message)

/-- Event with message "a", severity "info" — the spec's first-write-wins example. -/
def evInfo : LogEvent := ⟨"a", "info", none⟩

/-- Event with message "a", severity "error" — the spec's first-write-wins example. -/
def evError : LogEvent := ⟨"a", "error", none⟩

/-- A running record for task `t1` with `logs = [evInfo]`. -/
def recT1 : HistoryItem :=
  { id := 1, taskId := "t1", type := "parse", path := "p", folderName := "f",
    startTime := 0, status := "running", logs := [evInfo], allLogs := [],
    result := none, error := none, savedAt := 0, updatedAt := none,
    endTime := none, duration := none }

/-- A running record whose single log event has timestamp 5. -/
def recTs5 : HistoryItem := { recT1 with logs := [⟨"a", "info", some 5⟩] }

/-- The `i`-th record of the 100-record store used for the eviction claim:
all in `running` status, primary key `i`. -/
def mkRec (i : Nat) : HistoryItem :=
  { id := i, taskId := toString i, type := "parse", path := "p",
    folderName := "f", startTime := 0, status := "running", logs := [],
    allLogs := [], result := none, error := none, savedAt := 0,
    updatedAt := none, endTime := none, duration := none }

/-- A store already holding 100 records; the tail element `mkRec 99` is the
oldest-inserted one (inserts prepend). -/
def store100 : List HistoryItem := (List.range 100).map mkRec

/-- Task data whose initial logs repeat the same message twice. -/
def tdDupLogs : TaskData :=
  { taskId := "tdup", type := some "parse", path := "p", folderName := "f",
    startTime := some 0, status := some "running",
    logs := some [evInfo, evInfo], allLogs := none, result := none,
    error := none }

/-- Task data for the record that triggers the 101st insert. -/
def tdNew : TaskData :=
  { taskId := "new", type := some "parse", path := "p", folderName := "f",
    startTime := some 0, status := some "running", logs := some [],
    allLogs := none, result := none, error := none }

/-- A fetch trace whose longest run of consecutive timeouts is 10 (one
timeout, a successful running fetch, then ten timeouts). -/
def traceGap : List FetchOutcome :=
  [.timeout "tmo", .success "running" [] none] ++
    List.replicate 10 (.timeout "tmo")

/-- Eleven consecutive transient timeouts. -/
def trace11 : List FetchOutcome := List.replicate 11 (.timeout "tmo")

/-- The contents of the dedup loop's `seenMessages` set after processing a
list of events, starting from `seen`. -/
def seenAfter (seen : List String) : List LogEvent → List String
  | [] => seen
  | x :: xs =>
      if seen.contains x.message then seenAfter seen xs
      else seenAfter (x.message :: seen) xs

/-- The state of the matched record after the in-loop log update of a
fetch reporting `completed` (the `updateHistoryItem` call made inside the
`setLogs` updater): updated when some fetched events were new, otherwise
untouched. -/
def midItem (x : HistoryItem) (loc newLogs : List LogEvent) (now : Nat) :
    HistoryItem :=
  if (newLogs.filter (fun l => ! hasMessage loc l.message)).length > 0 then
    applyUpdates x
      { logs := some (loc ++ newLogs.filter (fun l => ! hasMessage loc l.message)),
        status := some "completed" } now
  else x

/-- The state of the matched record after the catch-branch update that runs
when the result fetch fails following a `completed` status. -/
def finalNoResultItem (x1 : HistoryItem) (cl : List LogEvent) (now dur : Nat) :
    HistoryItem :=
  applyUpdates x1
    { status := some "completed", endTime := some now, duration := some dur,
      logs := some (cl ++ [noResultEvent now]) } now

/-! Section: helper lemmas. -/

theorem mem_insertByTs (e a : LogEvent) (l : List LogEvent) :
    a ∈ insertByTs e l ↔ a = e ∨ a ∈ l := by
  induction l with
  | nil => simp [insertByTs]
  | cons x xs ih =>
      by_cases h : tsKey x < tsKey e
      · simp only [insertByTs, if_pos h, List.mem_cons, ih]
        tauto
      · simp only [insertByTs, if_neg h, List.mem_cons]

theorem insertByTs_perm (e : LogEvent) (l : List LogEvent) :
    (insertByTs e l).Perm (e :: l) := by
  induction l with
  | nil => simp [insertByTs]
  | cons x xs ih =>
      by_cases h : tsKey x < tsKey e
      · simp only [insertByTs, if_pos h]
        exact (ih.cons x).trans (List.Perm.swap e x xs)
      · simp [insertByTs, if_neg h]

theorem sortLogs_perm (l : List LogEvent) : (sortLogs l).Perm l := by
  induction l with
  | nil => simp [sortLogs]
  | cons x xs ih =>
      have : sortLogs (x :: xs) = insertByTs x (sortLogs xs) := rfl
      rw [this]
      exact (insertByTs_perm x (sortLogs xs)).trans (ih.cons x)

theorem mem_sortLogs (a : LogEvent) (l : List LogEvent) :
    a ∈ sortLogs l ↔ a ∈ l :=
  (sortLogs_perm l).mem_iff

theorem pairwise_insertByTs (e : LogEvent) (l : List LogEvent)
    (h : l.Pairwise (fun a b => tsKey a ≤ tsKey b)) :
    (insertByTs e l).Pairwise (fun a b => tsKey a ≤ tsKey b) := by
  induction l with
  | nil => simp [insertByTs]
  | cons x xs ih =>
      rcases List.pairwise_cons.1 h with ⟨hx, hxs⟩
      by_cases hlt : tsKey x < tsKey e
      · simp only [insertByTs, if_pos hlt]
        refine List.pairwise_cons.2 ⟨?_, ih hxs⟩
        intro b hb
        rcases (mem_insertByTs e b xs).1 hb with rfl | hb
        · exact le_of_lt hlt
        · exact hx b hb
      · simp only [insertByTs, if_neg hlt]
        refine List.pairwise_cons.2 ⟨?_, h⟩
        intro b hb
        rcases List.mem_cons.1 hb with rfl | hb
        · exact le_of_not_lt hlt
        · exact le_trans (le_of_not_lt hlt) (hx b hb)

theorem sortLogs_pairwise (l : List LogEvent) :
    (sortLogs l).Pairwise (fun a b => tsKey a ≤ tsKey b) := by
  induction l with
  | nil => simp [sortLogs]
  | cons x xs ih => exact pairwise_insertByTs x (sortLogs xs) ih

theorem mem_dedupByMessageGo (e : LogEvent) (l : List LogEvent) : ∀ seen,
    e ∈ dedupByMessageGo seen l ↔
      (seen.contains e.message = false ∧
        l.find? (fun x => x.message == e.message) = some e) := by
  induction l with
  | nil => intro seen; simp [dedupByMessageGo]
  | cons x xs ih =>
      intro seen
      by_cases hseen : seen.contains x.message = true
      · rw [dedupByMessageGo, if_pos hseen]
        by_cases hx : x.message = e.message
        · constructor
          · intro hmem
            exfalso
            have h1 := ((ih seen).1 hmem).1
            rw [← hx, hseen] at h1
            exact absurd h1 (by decide)
          · rintro ⟨hc, -⟩
            exfalso
            rw [← hx, hseen] at hc
            exact absurd hc (by decide)
        · rw [ih seen, List.find?_cons_of_neg _ (by simp [hx])]
      · rw [dedupByMessageGo, if_neg hseen]
        rw [Bool.not_eq_true] at hseen
        by_cases hx : x.message = e.message
        · have hfind : (x :: xs).find? (fun y => y.message == e.message) = some x :=
            List.find?_cons_of_pos _ (by simp [hx])
          rw [hfind]
          constructor
          · intro hmem
            rcases List.mem_cons.1 hmem with rfl | hmem
            · exact ⟨by simpa [← hx] using hseen, rfl⟩
            · have h1 := ((ih (x.message :: seen)).1 hmem).1
              simp [hx] at h1
          · rintro ⟨-, hx2⟩
            exact List.mem_cons.2 (Or.inl (Option.some.inj hx2).symm)
        · rw [List.find?_cons_of_neg _ (by simp [hx])]
          constructor
          · intro hmem
            rcases List.mem_cons.1 hmem with rfl | hmem
            · exact absurd rfl hx
            · have h2 := (ih (x.message :: seen)).1 hmem
              refine ⟨?_, h2.2⟩
              have h3 := h2.1
              simp at h3 ⊢
              exact h3.2
          · rintro ⟨hc, hfd⟩
            refine List.mem_cons.2 (Or.inr ((ih (x.message :: seen)).2 ⟨?_, hfd⟩))
            simp at hc ⊢
            exact ⟨fun h => hx h.symm, hc⟩

theorem mem_dedupByMessage (e : LogEvent) (l : List LogEvent) :
    e ∈ dedupByMessage l ↔
      l.find? (fun x => x.message == e.message) = some e := by
  rw [dedupByMessage, mem_dedupByMessageGo]
  simp [List.contains]

theorem dedupByMessageGo_append (l₁ l₂ : List LogEvent) : ∀ seen,
    dedupByMessageGo seen (l₁ ++ l₂) =
      dedupByMessageGo seen l₁ ++ dedupByMessageGo (seenAfter seen l₁) l₂ := by
  induction l₁ with
  | nil => intro seen; simp [dedupByMessageGo, seenAfter]
  | cons x xs ih =>
      intro seen
      by_cases hseen : seen.contains x.message = true
      · rw [List.cons_append, dedupByMessageGo, if_pos hseen,
          dedupByMessageGo, if_pos hseen, seenAfter, if_pos hseen, ih]
      · rw [List.cons_append, dedupByMessageGo, if_neg hseen,
          dedupByMessageGo, if_neg hseen, seenAfter, if_neg hseen, ih,
          List.cons_append]

theorem contains_seenAfter (l : List LogEvent) : ∀ (seen : List String) (m : String),
    seen.contains m = true → (seenAfter seen l).contains m = true := by
  induction l with
  | nil => intro seen m h; simpa [seenAfter] using h
  | cons x xs ih =>
      intro seen m h
      by_cases hseen : seen.contains x.message = true
      · rw [seenAfter, if_pos hseen]; exact ih seen m h
      · rw [seenAfter, if_neg hseen]
        refine ih _ m ?_
        simp [List.contains] at h ⊢
        exact Or.inr h

theorem contains_seenAfter_of_mem (l : List LogEvent) :
    ∀ (seen : List String) (x : LogEvent), x ∈ l →
      (seenAfter seen l).contains x.message = true := by
  induction l with
  | nil => intro seen x h; exact absurd h (List.not_mem_nil x)
  | cons y ys ih =>
      intro seen x hx
      by_cases hseen : seen.contains y.message = true
      · rw [seenAfter, if_pos hseen]
        rcases List.mem_cons.1 hx with rfl | hx
        · exact contains_seenAfter ys seen x.message hseen
        · exact ih seen x hx
      · rw [seenAfter, if_neg hseen]
        rcases List.mem_cons.1 hx with rfl | hx
        · exact contains_seenAfter ys _ x.message (by simp [List.contains])
        · exact ih _ x hx

theorem dedupByMessageGo_eq_nil (l : List LogEvent) :
    ∀ seen, (∀ x ∈ l, seen.contains x.message = true) →
      dedupByMessageGo seen l = [] := by
  induction l with
  | nil => intro seen _; rfl
  | cons x xs ih =>
      intro seen h
      rw [dedupByMessageGo, if_pos (h x (List.mem_cons_self x xs))]
      exact ih seen (fun y hy => h y (List.mem_cons_of_mem x hy))

theorem dedupByMessage_self_append (l : List LogEvent) :
    dedupByMessage (l ++ l) = dedupByMessage l := by
  rw [dedupByMessage, dedupByMessage, dedupByMessageGo_append,
    dedupByMessageGo_eq_nil l (seenAfter [] l)
      (fun x hx => contains_seenAfter_of_mem l [] x hx),
    List.append_nil]

theorem updateFirst_append (p : HistoryItem → Bool) (f : HistoryItem → HistoryItem)
    (pre : List HistoryItem) (x : HistoryItem) (post : List HistoryItem)
    (hpre : ∀ y ∈ pre, p y = false) (hx : p x = true) :
    updateFirst p f (pre ++ x :: post) = some (pre ++ f x :: post) := by
  induction pre with
  | nil => simp [updateFirst, hx]
  | cons y ys ih =>
      have hy : p y = false := hpre y (List.mem_cons_self y ys)
      rw [List.cons_append, updateFirst, if_neg (by simp [hy]),
        ih (fun z hz => hpre z (List.mem_cons_of_mem y hz))]
      rfl

theorem applyUpdates_eq (item : HistoryItem) (u : Updates) (now : Nat) :
    applyUpdates item u now =
      { item with
        logs := (match u.logs with
          | some ls => if ls.length > 0 then mergeNewLogs item.logs ls else ls
          | none => item.logs)
        status := u.status.getD item.status
        endTime := match u.endTime with | some t => some t | none => item.endTime
        error := match u.error with | some e => some e | none => item.error
        duration := match u.duration with | some d => some d | none => item.duration
        result := match u.result with | some r => some r | none => item.result
        updatedAt := some now } := by
  rw [applyUpdates]
  cases hl : u.logs with
  | none => simp [hl]
  | some ls => by_cases h : ls.length > 0 <;> simp [hl, h]

theorem applyUpdates_logs (item : HistoryItem) (u : Updates) (now : Nat)
    (ls : List LogEvent) (hls : u.logs = some ls) (hlen : ls.length > 0) :
    (applyUpdates item u now).logs = mergeNewLogs item.logs ls := by
  rw [applyUpdates_eq, hls]
  simp [hlen]

theorem updateHistoryItem_append (tid : String) (u : Updates) (now : Nat)
    (pre : List HistoryItem) (x : HistoryItem) (post : List HistoryItem)
    (hpre : ∀ y ∈ pre, (y.taskId == tid) = false)
    (hx : (x.taskId == tid) = true) :
    updateHistoryItem tid u now (pre ++ x :: post) =
      (pre ++ applyUpdates x u now :: post, true) := by
  rw [updateHistoryItem, updateFirst_append _ _ pre x post hpre hx]

/-- Unfolding of one poll step for a successful fetch reporting `completed`
whose follow-up result fetch fails. -/
theorem pollSim_completed_noresult (id : String) (cl : List LogEvent)
    (now dur a : Nat) (loc newLogs : List LogEvent) (hist : List HistoryItem) :
    pollSim id cl now dur a loc hist
        [FetchOutcome.success "completed" newLogs none] =
      ⟨(updateHistoryItem id
          { status := some "completed", endTime := some now,
            duration := some dur,
            logs := some (cl ++ [noResultEvent now]) } now
          (if (newLogs.filter (fun l => ! hasMessage loc l.message)).length > 0 then
            (updateHistoryItem id
              { logs := some (loc ++ newLogs.filter (fun l => ! hasMessage loc l.message)),
                status := some "completed" } now hist).1
          else hist)).1,
        loc ++ newLogs.filter (fun l => ! hasMessage loc l.message),
        PollEnd.completedNoResult⟩ := by
  rfl

theorem midItem_taskId (x : HistoryItem) (loc newLogs : List LogEvent)
    (now : Nat) : (midItem x loc newLogs now).taskId = x.taskId := by
  unfold midItem
  split <;> rfl

theorem midItem_result (x : HistoryItem) (loc newLogs : List LogEvent)
    (now : Nat) : (midItem x loc newLogs now).result = x.result := by
  unfold midItem
  split
  · rw [applyUpdates_eq]
  · rfl

theorem midItem_msgs (x : HistoryItem) (loc newLogs : List LogEvent)
    (now : Nat) (m : String)
    (hfresh : ∀ e ∈ x.logs ++ loc ++ newLogs, e.message ≠ m) :
    ∀ e ∈ (midItem x loc newLogs now).logs, e.message ≠ m := by
  by_cases h : (newLogs.filter (fun l => ! hasMessage loc l.message)).length > 0
  · rw [midItem, if_pos h,
      applyUpdates_logs _ _ _ _ rfl (by simp only [List.length_append]; omega)]
    intro e he
    rcases List.mem_append.1 he with he | he
    · exact hfresh e (by simp [he])
    · rcases List.mem_append.1 (List.mem_of_mem_filter he) with he2 | he2
      · exact hfresh e (by simp [he2])
      · exact hfresh e (by simp [List.mem_of_mem_filter he2])
  · rw [midItem, if_neg h]
    intro e he
    exact hfresh e (by simp [he])

/-! Section: claim theorems. -/

/-- C1 counterexample: the final reconciliation of the incoming authoritative
dump `[{message "a", severity "error"}]` against a record whose existing
`logEvents` are `[{message "a", severity "info"}]` keeps the INCOMING event:
the surviving event has severity "error", not "info" as the claim states
(the code concatenates `[...backendLogs, ...existingLogs]`, backend first). -/
theorem history_c1_counterexample :
    (saveCompleteLogsToHistory "t1" [evError] 9 [recT1]).2 = true ∧
    ((saveCompleteLogsToHistory "t1" [evError] 9 [recT1]).1.map
        (fun r => r.logs) = [[evError]]) ∧
    recT1.logs = [evInfo] ∧ evError.message = evInfo.message ∧
    evError.type = "error" := by
  refine ⟨rfl, ?_, rfl, rfl, rfl⟩
  rfl

/-- C1 (amended): the final reconciliation concatenates the INCOMING
authoritative dump first and the existing events after it, deduplicates by
message with the first occurrence in that order winning — an event is kept
exactly when it is the first event carrying its message in
`incoming ++ existing`, so an incoming event's fields take precedence over a
same-message existing event; the spec's example yields exactly one event,
with severity "error". -/
theorem history_c1_amended :
    (∀ (inc ex : List LogEvent) (e : LogEvent),
        e ∈ mergeCompleteLogs inc ex ↔
          (inc ++ ex).find? (fun x => x.message == e.message) = some e) ∧
    mergeCompleteLogs [evError] [evInfo] = [evError] := by
  constructor
  · intro inc ex e
    rw [mergeCompleteLogs, mem_sortLogs, mem_dedupByMessage]
  · rfl

/-- C2 counterexample: an update pass that merges a batch of new log events
does not sort — merging an event with timestamp 3 into a record whose only
event has timestamp 5 leaves the sequence in order [5, 3], not ascending. -/
theorem history_c2_counterexample :
    ((updateHistoryItem "t1" { logs := some [⟨"b", "info", some 3⟩] } 9
        [recTs5]).1.map (fun r => r.logs) =
      [[⟨"a", "info", some 5⟩, ⟨"b", "info", some 3⟩]]) ∧
    ¬ LogsSortedByTs [⟨"a", "info", some 5⟩, ⟨"b", "info", some 3⟩] := by
  refine ⟨rfl, ?_⟩
  intro h
  rcases List.pairwise_cons.1 h with ⟨h1, -⟩
  have h2 := h1 _ (List.mem_cons_self _ _)
  simp [tsKey] at h2

/-- C2 (amended): only the final authoritative-dump reconciliation sorts
`logEvents` ascending by timestamp (a missing timestamp is keyed as 0, the
minimum); an update pass appends the genuinely new events after the existing
ones in arrival order, without sorting. -/
theorem history_c2_amended :
    (∀ inc ex : List LogEvent, LogsSortedByTs (mergeCompleteLogs inc ex)) ∧
    (∀ (item : HistoryItem) (u : Updates) (now : Nat) (ls : List LogEvent),
        u.logs = some ls → ls.length > 0 →
        (applyUpdates item u now).logs = mergeNewLogs item.logs ls) := by
  constructor
  · intro inc ex
    exact sortLogs_pairwise _
  · intro item u now ls hls hlen
    simp [applyUpdates, hls, hlen]

/-- Witness for the amended C2 at concrete inputs. -/
theorem history_c2_witness :
    LogsSortedByTs (mergeCompleteLogs [evError] [evInfo]) ∧
    (applyUpdates recTs5 { logs := some [⟨"b", "info", some 3⟩] } 9).logs =
      mergeNewLogs recTs5.logs [⟨"b", "info", some 3⟩] :=
  ⟨history_c2_amended.1 [evError] [evInfo],
   history_c2_amended.2 recTs5 { logs := some [⟨"b", "info", some 3⟩] } 9
     [⟨"b", "info", some 3⟩] rfl (by decide)⟩

/-- C3 counterexample: creation stores the initial logs verbatim — inserting
a record whose initial logs repeat message "a" twice yields a record with two
equal-message `logEvents` entries. -/
theorem history_c3_counterexample :
    (saveToHistory 1 0 tdDupLogs []).1 = [mkHistoryItem 1 0 tdDupLogs] ∧
    (mkHistoryItem 1 0 tdDupLogs).logs = [evInfo, evInfo] ∧
    ¬ NodupMessages (mkHistoryItem 1 0 tdDupLogs).logs := by
  refine ⟨rfl, rfl, ?_⟩
  intro h
  rw [show (mkHistoryItem 1 0 tdDupLogs).logs = [evInfo, evInfo] from rfl] at h
  rcases List.pairwise_cons.1 h with ⟨h1, -⟩
  exact h1 evInfo (List.mem_cons_self _ _) rfl

/-- C3 (amended): the update merge never appends an incoming event whose
message already occurs in the record, so when the existing sequence and the
incoming batch each have pairwise-distinct messages the merged sequence does
too; duplicates inside a single incoming batch, or in the initial logs at
creation, are however stored as-is. -/
theorem history_c3_amended (ex inc : List LogEvent)
    (hex : NodupMessages ex) (hinc : NodupMessages inc) :
    NodupMessages (mergeNewLogs ex inc) := by
  rw [mergeNewLogs, NodupMessages, List.pairwise_append]
  refine ⟨hex, List.Pairwise.sublist (List.filter_sublist inc) hinc, ?_⟩
  intro a ha b hb
  rcases List.mem_filter.1 hb with ⟨-, hbp⟩
  simp only [hasMessage, Bool.not_eq_true', List.any_eq_false] at hbp
  intro heq
  exact hbp a ha (by simp [heq])

/-- Witness for the amended C3 at concrete inputs. -/
theorem history_c3_witness :
    NodupMessages (mergeNewLogs [evInfo] [⟨"b", "info", none⟩]) :=
  history_c3_amended [evInfo] [⟨"b", "info", none⟩]
    (by simp [NodupMessages]) (by simp [NodupMessages])

/-- C4 counterexample: eviction ignores status — inserting a 101st record
into a full store whose oldest-inserted (tail) record is in running status
evicts exactly that running record. -/
theorem history_c4_counterexample :
    (saveToHistory 1000 0 tdNew store100).1.length = 100 ∧
    (mkRec 99).status = "running" ∧
    mkRec 99 ∈ store100 ∧
    mkRec 99 ∉ (saveToHistory 1000 0 tdNew store100).1 := by
  have hres : (saveToHistory 1000 0 tdNew store100).1 =
      mkHistoryItem 1000 0 tdNew :: store100.take 99 := by
    rw [saveToHistory, show MAX_HISTORY_ITEMS = 99 + 1 from rfl,
      List.take_succ_cons]
  have htake : store100.take 99 = (List.range 99).map mkRec := by
    rw [store100, ← List.map_take, List.take_range]
    norm_num
  refine ⟨?_, rfl, ?_, ?_⟩
  · rw [hres]
    simp [htake]
  · exact List.mem_map.2 ⟨99, by simp, rfl⟩
  · rw [hres, htake]
    intro h
    rcases List.mem_cons.1 h with heq | hmem
    · have := congrArg HistoryItem.id heq
      simp [mkRec, mkHistoryItem] at this
    · rcases List.mem_map.1 hmem with ⟨i, hi, heq⟩
      have : i = 99 := congrArg HistoryItem.id heq
      rw [this] at hi
      exact absurd (List.mem_range.1 hi) (by decide)

/-- C4 (amended): every insert leaves at most 100 records, and inserting
into a full store of 100 records evicts exactly the single oldest-inserted
(tail) record, regardless of its status — including a record in running
status that is being actively polled. -/
theorem history_c4_amended (freshId now : Nat) (td : TaskData)
    (hist : List HistoryItem) :
    (saveToHistory freshId now td hist).1.length ≤ 100 ∧
    (hist.length = 100 →
      (saveToHistory freshId now td hist).1 =
        mkHistoryItem freshId now td :: hist.dropLast) := by
  constructor
  · rw [saveToHistory]
    simp [MAX_HISTORY_ITEMS, List.length_take]
  · intro h100
    rw [saveToHistory, show MAX_HISTORY_ITEMS = 99 + 1 from rfl,
      List.take_succ_cons]
    have : hist.dropLast = hist.take 99 := by
      rw [List.dropLast_eq_take, h100]
    rw [this]

/-- Witness for the amended C4 at concrete inputs. -/
theorem history_c4_witness :
    (saveToHistory 1000 0 tdNew store100).1 =
      mkHistoryItem 1000 0 tdNew :: store100.dropLast :=
  (history_c4_amended 1000 0 tdNew store100).2 (by simp [store100])

/-- C7: evaluation at the failing input — an update whose `logs` payload is
the empty list bypasses the merge special-case (`updates.logs.length > 0` is
false) but the payload is still spread over the record, truncating its log
sequence to empty: message "a", present before the update, is gone after it. -/
theorem history_c7_code_bug_eval :
    recT1.logs = [evInfo] ∧
    (updateHistoryItem "t1" { logs := some [] } 9 [recT1]).2 = true ∧
    ((updateHistoryItem "t1" { logs := some [] } 9 [recT1]).1.map
      (fun r => r.logs) = [[]]) := by
  refine ⟨rfl, rfl, ?_⟩
  rfl

/-- C8: the Reconciler merge is idempotent — merging a sequence `E` once (as
the sole source, in either argument position) and merging `E` with itself
give the same result list, identical event for event. -/
theorem reconciler_c8_idempotent (E : List LogEvent) :
    mergeCompleteLogs E [] = mergeCompleteLogs E E ∧
    mergeCompleteLogs [] E = mergeCompleteLogs E E := by
  unfold mergeCompleteLogs
  rw [dedupByMessage_self_append, List.append_nil, List.nil_append]
  exact ⟨rfl, rfl⟩

/-- C9: reading the history never throws — an absent snapshot and an
unparseable snapshot are both observed as the empty history (the parse
exception is caught), and a valid snapshot is returned as parsed; the
embedding of `getHistory` is a total function. -/
theorem history_c9_getHistory_total :
    getHistory none = [] ∧ getHistory (some none) = [] ∧
      ∀ l : List HistoryItem, getHistory (some (some l)) = l :=
  ⟨rfl, rfl, fun _ => rfl⟩

/-- C10: after a successful final reconciliation the matched record's
`allLogs` field is the backend's dump exactly as passed in — no dedup,
reorder or merge — while its `logs` field gets the merged deduplicated
sequence; all other records are untouched. -/
theorem history_c10_allLogs_verbatim (tid : String) (b : List LogEvent)
    (now : Nat) (pre : List HistoryItem) (x : HistoryItem)
    (post : List HistoryItem)
    (hpre : ∀ y ∈ pre, (y.taskId == tid) = false)
    (hx : (x.taskId == tid) = true) :
    saveCompleteLogsToHistory tid b now (pre ++ x :: post) =
      (pre ++ finalizeItem b now x :: post, true) ∧
    (finalizeItem b now x).allLogs = b ∧
    (finalizeItem b now x).logs = mergeCompleteLogs b x.logs := by
  refine ⟨?_, rfl, rfl⟩
  rw [saveCompleteLogsToHistory, updateFirst_append _ _ pre x post hpre hx]

/-- C5 counterexample: the code's timeout counter counts every timeout of
the poll and is never reset by a successful fetch — on `traceGap`, whose
longest run of CONSECUTIVE timeouts is only 10, the claim ("a successful
fetch between timeouts means the bound is not reached") predicts the poller
is still retrying, but the code aborts. -/
theorem poller_c5_counterexample :
    (pollSim "t1" [] 5 7 0 [] [] traceGap).outcome = PollEnd.aborted ∧
    maxConsecTimeouts traceGap = 10 := by
  exact ⟨rfl, rfl⟩

/-- C5 (amended): a fetch failure classified as a transient timeout is
retried (with no store update, hence no status change) as long as the
CUMULATIVE timeout counter — which counts every transient timeout of the
poll and is never reset by a successful fetch — is below 10; a non-timeout
error or an exceeded bound aborts, and after 11 timeouts the record ends
with status "failed", the communication-failure message recorded in `error`,
an end timestamp, and no result attached. -/
theorem poller_c5_amended :
    (∀ (id : String) (cl : List LogEvent) (now dur a : Nat)
        (loc : List LogEvent) (hist : List HistoryItem) (emsg : String)
        (rest : List FetchOutcome), a < maxAttempts →
        pollSim id cl now dur a loc hist (FetchOutcome.timeout emsg :: rest) =
          pollSim id cl now dur (a + 1) loc hist rest) ∧
    ((pollSim "t1" [] 5 7 0 [] [recT1] trace11).outcome = PollEnd.aborted ∧
      (pollSim "t1" [] 5 7 0 [] [recT1] trace11).hist.map
          (fun r => (r.status, r.error, r.result, r.endTime)) =
        [("failed", some "tmo", none, some 5)]) := by
  constructor
  · intro id cl now dur a loc hist emsg rest h
    simp only [pollSim]
    rw [if_pos h]
  · exact ⟨rfl, rfl⟩

/-- Witness for the amended C5 at concrete inputs. -/
theorem poller_c5_witness :
    0 < maxAttempts ∧
    pollSim "t1" [] 5 7 0 [] [recT1] [FetchOutcome.timeout "x"] =
      pollSim "t1" [] 5 7 1 [] [recT1] [] :=
  ⟨by decide,
   poller_c5_amended.1 "t1" [] 5 7 0 [] [recT1] "x" [] (by decide)⟩

/-- C6: when the status fetch reports completed but the follow-up result
fetch fails, the poll finishes normally (outcome `completedNoResult`; the
failure is swallowed, not propagated), and the matched record is finalized:
status "completed", `endTime` set, `duration` set, its `result` field left
exactly as it was (so no result payload is attached), and the synthetic
info-severity event noting the omission appended to its logs. -/
theorem poller_c6_completed_result_failure
    (id : String) (cl : List LogEvent) (now dur a : Nat)
    (loc newLogs : List LogEvent) (pre post : List HistoryItem)
    (x : HistoryItem)
    (hpre : ∀ y ∈ pre, (y.taskId == id) = false)
    (hx : (x.taskId == id) = true)
    (hfresh : ∀ e ∈ x.logs ++ loc ++ newLogs,
        e.message ≠ (noResultEvent now).message) :
    ∃ x2 : HistoryItem,
      pollSim id cl now dur a loc (pre ++ x :: post)
          [FetchOutcome.success "completed" newLogs none] =
        ⟨pre ++ x2 :: post,
          loc ++ newLogs.filter (fun l => ! hasMessage loc l.message),
          PollEnd.completedNoResult⟩ ∧
      x2.status = "completed" ∧ x2.endTime = some now ∧
      x2.result = x.result ∧ x2.duration = some dur ∧
      noResultEvent now ∈ x2.logs := by
  have hmid_msgs : ∀ e ∈ (midItem x loc newLogs now).logs,
      e.message ≠ (noResultEvent now).message :=
    midItem_msgs x loc newLogs now (noResultEvent now).message hfresh
  refine ⟨finalNoResultItem (midItem x loc newLogs now) cl now dur,
    ?_, ?_, ?_, ?_, ?_, ?_⟩
  · rw [pollSim_completed_noresult]
    have hhist :
        (if (newLogs.filter (fun l => ! hasMessage loc l.message)).length > 0 then
            (updateHistoryItem id
              { logs := some (loc ++ newLogs.filter (fun l => ! hasMessage loc l.message)),
                status := some "completed" } now (pre ++ x :: post)).1
          else (pre ++ x :: post)) =
          pre ++ midItem x loc newLogs now :: post := by
      rw [midItem]
      by_cases h : (newLogs.filter (fun l => ! hasMessage loc l.message)).length > 0
      · rw [if_pos h, if_pos h,
          updateHistoryItem_append id _ now pre x post hpre hx]
      · rw [if_neg h, if_neg h]
    rw [hhist, updateHistoryItem_append id _ now pre _ post hpre
      (by rw [midItem_taskId]; exact hx)]
    rw [finalNoResultItem]
  · rw [finalNoResultItem, applyUpdates_eq]
    rfl
  · rw [finalNoResultItem, applyUpdates_eq]
  · rw [finalNoResultItem, applyUpdates_eq, midItem_result]
  · rw [finalNoResultItem, applyUpdates_eq]
  · rw [finalNoResultItem,
      applyUpdates_logs _ _ _ (cl ++ [noResultEvent now]) rfl (by simp)]
    have hnm : hasMessage (midItem x loc newLogs now).logs
        (noResultEvent now).message = false := by
      simp only [hasMessage, List.any_eq_false]
      intro e he
      simpa using hmid_msgs e he
    rw [mergeNewLogs]
    refine List.mem_append.2 (Or.inr (List.mem_filter.2 ⟨?_, ?_⟩))
    · exact List.mem_append.2 (Or.inr (List.mem_cons_self _ _))
    · simp [hnm]

/-- Witness for C6 at concrete inputs. -/
theorem poller_c6_witness :
    ∃ x2 : HistoryItem,
      pollSim "t1" [] 5 7 0 [] ([] ++ recT1 :: [])
          [FetchOutcome.success "completed" [] none] =
        ⟨[] ++ x2 :: [],
          [] ++ List.filter (fun l => ! hasMessage [] l.message) [],
          PollEnd.completedNoResult⟩ ∧
      x2.status = "completed" ∧ x2.endTime = some 5 ∧
      x2.result = recT1.result ∧ x2.duration = some 7 ∧
      noResultEvent 5 ∈ x2.logs :=
  poller_c6_completed_result_failure "t1" [] 5 7 0 [] [] [] [] recT1
    (fun y hy => absurd hy (List.not_mem_nil y)) (by decide) (by decide)

/-- Witness for C10 at concrete inputs. -/
theorem history_c10_witness :
    saveCompleteLogsToHistory "t1" [evError] 9 ([] ++ recT1 :: []) =
      ([] ++ finalizeItem [evError] 9 recT1 :: [], true) ∧
    (finalizeItem [evError] 9 recT1).allLogs = [evError] ∧
    (finalizeItem [evError] 9 recT1).logs = mergeCompleteLogs [evError] recT1.logs :=
  history_c10_allLogs_verbatim "t1" [evError] 9 [] recT1 []
    (fun y hy => absurd hy (List.not_mem_nil y)) (by decide)

end ParserProject
